import Mathlib

set_option maxHeartbeats 1000000
set_option linter.unnecessarySimpa false

/-!
Verification development for the multipart-rs reader
(src/error.rs, src/reader.rs).

Bytes are modelled as natural numbers (`List Nat` for byte buffers);
Rust `String`s are modelled as lists of Unicode code points
(also `List Nat`), obtained from the byte buffer through a model of
`str::from_utf8`.
-/

/-- Error enumeration from src/error.rs. -/
inductive MultipartError
  | NoContentType
  | InvalidBoundary
  | InvalidContentType
  | InvalidMultipartType
  | InvalidItemHeader
  | PollingDataFailed
  deriving DecidableEq, Repr

/-- Modelled from the spec: `MultipartType` lives in `src/multipart_type.rs`,
which is not among the provided sources.  The spec (section 3) describes it as
"a closed enumeration of recognized subtypes (e.g., form-data, mixed,
byte-ranges); unrecognized subtype names are rejected, never passed
through." -/
inductive MultipartType
  | FormData
  | Mixed
  | ByteRanges
  deriving DecidableEq, Repr

/-- State enumeration `InnerState` from src/reader.rs.  `Boundary` is the
spec's `AwaitingBoundary`, `FirstBoundary` its `AwaitingFirstBoundary`,
`Headers` its `ReadingHeaders`. -/
inductive InnerState
  | Eof
  | FirstBoundary
  | Boundary
  | Headers
  deriving DecidableEq, Repr

/-- `MultipartItem` from src/reader.rs: headers are `Vec<(String, String)>`
(lists of code-point strings here), data is `Vec<u8>` (a byte list). -/
structure MultipartItem where
  headers : List (List Nat × List Nat)
  data : List Nat
  deriving DecidableEq, Repr

/-- `MultipartReader` from src/reader.rs.  `boundary` is kept as its UTF-8
byte sequence because the only use is `self.boundary.as_bytes()`. -/
structure MultipartReader where
  boundary : List Nat
  data : List Nat
  state : InnerState
  multipart_type : MultipartType
  pending_item : Option MultipartItem
  deriving DecidableEq, Repr

/-- ASCII lowercasing of a code point; model of Rust `to_lowercase` on the
ASCII inputs exercised here (header keys like "Content-Type"). -/
def lowerAscii (c : Nat) : Nat := if 65 ≤ c ∧ c ≤ 90 then c + 32 else c

/-- Code points with the Unicode White_Space property, as used by Rust
`char::is_whitespace` (and hence `str::trim`). -/
def isWhitespaceChar (c : Nat) : Bool :=
  decide ((9 ≤ c ∧ c ≤ 13) ∨ c = 32 ∨ c = 0x85 ∨ c = 0xA0 ∨ c = 0x1680 ∨
    (0x2000 ≤ c ∧ c ≤ 0x200A) ∨ c = 0x2028 ∨ c = 0x2029 ∨ c = 0x202F ∨
    c = 0x205F ∨ c = 0x3000)

/-- Model of Rust `str::trim`: drop whitespace from both ends. -/
def rustTrim (s : List Nat) : List Nat :=
  ((s.dropWhile isWhitespaceChar).reverse.dropWhile isWhitespaceChar).reverse

/-- Index of the first occurrence of the two-byte sequence CRLF (13, 10) in a
byte list; model of `memchr::memmem::Finder::new("\r\n").find(data)`. -/
def findCRLF : List Nat → Option Nat
  | [] => none
  | a :: rest =>
    if a = 13 ∧ rest.head? = some 10 then some 0
    else (findCRLF rest).map (· + 1)

/-- Index of the first occurrence of the two-code-point separator ": "
(58, 32) in a string. -/
def findSep : List Nat → Option Nat
  | [] => none
  | a :: rest =>
    if a = 58 ∧ rest.head? = some 32 then some 0
    else (findSep rest).map (· + 1)

/-- Fuelled worker for `splitColonSpace`. -/
def splitSepFuel : Nat → List Nat → List (List Nat)
  | 0, s => [s]
  | fuel + 1, s =>
    match findSep s with
    | none => [s]
    | some i => s.take i :: splitSepFuel fuel (s.drop (i + 2))

/-- Model of Rust `str::split(": ")`: splits on non-overlapping, leftmost-first
occurrences of the separator ": ".  `s.length` fuel always suffices because
every found separator consumes two elements. -/
def splitColonSpace (s : List Nat) : List (List Nat) := splitSepFuel s.length s

/-- One step of UTF-8 decoding: given the first byte `b1` and the remaining
bytes, produce the decoded code point and the bytes after its encoding, or
`none` if the bytes do not start with a valid UTF-8 sequence.  The accepted
shapes are exactly those of Rust `str::from_utf8` (overlong forms, surrogates
and out-of-range values rejected). -/
def utf8Step (b1 : Nat) (rest : List Nat) : Option (Nat × List Nat) :=
  if b1 < 0x80 then some (b1, rest)
  else if 0xC2 ≤ b1 ∧ b1 ≤ 0xDF then
    match rest with
    | b2 :: rest2 =>
      if 0x80 ≤ b2 ∧ b2 ≤ 0xBF then
        some ((b1 - 0xC0) * 0x40 + (b2 - 0x80), rest2)
      else none
    | [] => none
  else if 0xE0 ≤ b1 ∧ b1 ≤ 0xEF then
    match rest with
    | b2 :: b3 :: rest3 =>
      if (if b1 = 0xE0 then 0xA0 else 0x80) ≤ b2 ∧
          b2 ≤ (if b1 = 0xED then 0x9F else 0xBF) ∧
          0x80 ≤ b3 ∧ b3 ≤ 0xBF then
        some ((b1 - 0xE0) * 0x1000 + (b2 - 0x80) * 0x40 + (b3 - 0x80), rest3)
      else none
    | _ => none
  else if 0xF0 ≤ b1 ∧ b1 ≤ 0xF4 then
    match rest with
    | b2 :: b3 :: b4 :: rest4 =>
      if (if b1 = 0xF0 then 0x90 else 0x80) ≤ b2 ∧
          b2 ≤ (if b1 = 0xF4 then 0x8F else 0xBF) ∧
          0x80 ≤ b3 ∧ b3 ≤ 0xBF ∧ 0x80 ≤ b4 ∧ b4 ≤ 0xBF then
        some ((b1 - 0xF0) * 0x40000 + (b2 - 0x80) * 0x1000 +
          (b3 - 0x80) * 0x40 + (b4 - 0x80), rest4)
      else none
    | _ => none
  else none

/-- Fuelled worker for `utf8Decode`; each decoded character consumes at least
one byte, so `bs.length` fuel always suffices. -/
def utf8DecodeFuel : Nat → List Nat → Option (List Nat)
  | _, [] => some []
  | 0, _ :: _ => none
  | fuel + 1, b1 :: rest =>
    match utf8Step b1 rest with
    | none => none
    | some (c, rest2) => (utf8DecodeFuel fuel rest2).map (c :: ·)

/-- Model of Rust `str::from_utf8` followed by reading the characters of the
resulting string: decodes a byte list into the list of code points, or `none`
exactly when the bytes are not valid UTF-8. -/
def utf8Decode (bs : List Nat) : Option (List Nat) := utf8DecodeFuel bs.length bs

/-- Unicode scalar values: the code points a Rust `char` can hold. -/
def validScalar (c : Nat) : Bool :=
  decide (c < 0xD800 ∨ (0xE000 ≤ c ∧ c < 0x110000))

/-- UTF-8 encoding of a single scalar value. -/
def utf8EncodeChar (c : Nat) : List Nat :=
  if c < 0x80 then [c]
  else if c < 0x800 then [0xC0 + c / 0x40, 0x80 + c % 0x40]
  else if c < 0x10000 then
    [0xE0 + c / 0x1000, 0x80 + c / 0x40 % 0x40, 0x80 + c % 0x40]
  else
    [0xF0 + c / 0x40000, 0x80 + c / 0x1000 % 0x40,
      0x80 + c / 0x40 % 0x40, 0x80 + c % 0x40]

/-- UTF-8 encoding of a code-point string. -/
def utf8Encode (cs : List Nat) : List Nat := (cs.map utf8EncodeChar).flatten

/-- `is_boundary` from src/reader.rs: `data.starts_with(self.boundary.as_bytes())`. -/
def isBoundary (r : MultipartReader) (data : List Nat) : Bool :=
  r.boundary.isPrefixOf data

deriving instance DecidableEq for Except

/-- Return value of one `poll_next` call: `ready` is `Poll::Ready` (with
`none` for `Ready(None)`), `pending` is `Poll::Pending`, `panicked` marks the
`unwrap()` on a `None` pending item aborting the call. -/
inductive PollOut
  | ready : Option (Except MultipartError MultipartItem) → PollOut
  | pending : PollOut
  | panicked : PollOut
  deriving DecidableEq, Repr

/-- Outcome of one iteration of the `while let Some(idx) = finder.find(...)`
loop body of `poll_next`: either the loop continues with an updated reader, or
the call returns. -/
inductive StepRes
  | cont : MultipartReader → StepRes
  | done : MultipartReader → PollOut → StepRes
  deriving DecidableEq, Repr

/-- One iteration of the `poll_next` loop of src/reader.rs (lines 115-199):
find the next CRLF, act on the line before it according to the current state. -/
def pollStep (r : MultipartReader) : StepRes :=
  match findCRLF r.data with
  | none => .done r (.ready none)
  | some idx =>
    let line := r.data.take idx
    match r.state with
    | .Eof => .done r (.ready none)
    | .FirstBoundary =>
      .cont { r with state := if isBoundary r line then .Headers else .FirstBoundary, data := r.data.drop (idx + 2) }
    | .Boundary =>
      if isBoundary r line then
        match r.pending_item with
        | some item =>
          .done { r with data := r.data.drop (idx + 2), state := .Headers, pending_item := none }
            (.ready (some (.ok item)))
        | none =>
          .cont { r with state := .Headers, pending_item := some ⟨[], line⟩, data := r.data.drop (idx + 2) }
      else
        match r.pending_item with
        | some item =>
          .cont { r with pending_item := some ⟨item.headers, item.data ++ line⟩, data := r.data.drop (idx + 2) }
        | none => .done r .panicked
    | .Headers =>
      let item := r.pending_item.getD ⟨[], []⟩
      match utf8Decode line with
      | none =>
        .done { r with state := .Eof, pending_item := some item }
          (.ready (some (.error .InvalidItemHeader)))
      | some cs =>
        if rustTrim cs = [] then
          .cont { r with data := r.data.drop (idx + 2), state := .Boundary, pending_item := some item }
        else
          match splitColonSpace cs with
          | [n, v] =>
            .cont { r with pending_item := some ⟨item.headers ++ [(n, v)], item.data⟩, data := r.data.drop (idx + 2) }
          | _ =>
            .done { r with state := .Eof, pending_item := some item }
              (.ready (some (.error .InvalidItemHeader)))

/-- Fuelled iteration of `pollStep`; every continuing step consumes at least
two bytes of `r.data`, so `r.data.length` fuel suffices. -/
def pollNextAux : Nat → MultipartReader → MultipartReader × PollOut
  | 0, r => (r, .ready none)
  | fuel + 1, r =>
    match pollStep r with
    | .done r' out => (r', out)
    | .cont r' => pollNextAux fuel r'

/-- One call of `Stream::poll_next` of src/reader.rs: runs the scanning loop
until a return, producing the updated reader and the returned value. -/
def pollNext (r : MultipartReader) : MultipartReader × PollOut :=
  pollNextAux r.data.length r

/-- Repeatedly call `pollNext`, collecting the returned items and errors until
the stream reports end (`Ready(None)`) or the fuel runs out. -/
def pollAll : Nat → MultipartReader → List (Except MultipartError MultipartItem)
  | 0, _ => []
  | fuel + 1, r =>
    match pollNext r with
    | (r', .ready (some x)) => x :: pollAll fuel r'
    | (_, _) => []

/-- `from_data_with_boundary_and_type` from src/reader.rs: always `Ok`. -/
def fromDataWithBoundaryAndType (data boundary : List Nat) (t : MultipartType) :
    Except MultipartError MultipartReader :=
  .ok ⟨boundary, data, .FirstBoundary, t, none⟩


/-- Leftmost split of a string on a single code point `c`, accumulator style;
`splitCharAll c s []` is Rust `str::split(c)`. -/
def splitCharAll (c : Nat) : List Nat → List Nat → List (List Nat)
  | [], acc => [acc.reverse]
  | x :: rest, acc =>
    if x = c then acc.reverse :: splitCharAll c rest []
    else splitCharAll c rest (x :: acc)

/-- The string "content-type" as code points. -/
def contentTypeKey : List Nat := [99, 111, 110, 116, 101, 110, 116, 45, 116, 121, 112, 101]

/-- The string "boundary" as code points. -/
def boundaryKey : List Nat := [98, 111, 117, 110, 100, 97, 114, 121]

/-- The string "multipart" as code points. -/
def multipartStr : List Nat := [109, 117, 108, 116, 105, 112, 97, 114, 116]

/-- The string "form-data" as code points. -/
def formDataStr : List Nat := [102, 111, 114, 109, 45, 100, 97, 116, 97]

/-- The string "mixed" as code points. -/
def mixedStr : List Nat := [109, 105, 120, 101, 100]

/-- The string "byteranges" as code points. -/
def byterangesStr : List Nat := [98, 121, 116, 101, 114, 97, 110, 103, 101, 115]

/-- Modelled from the spec: the result of the external media-type parser (the
`mime` crate), which the spec treats as "a black-box parser returning a
(type, subtype, parameters) triple" (section 1). -/
structure Mime where
  mainType : List Nat
  subType : List Nat
  params : List (List Nat × List Nat)
  deriving DecidableEq, Repr

/-- Modelled from the spec: one `name=value` parameter of a media type, with
leading spaces stripped. -/
def parseParam (p : List Nat) : Option (List Nat × List Nat) :=
  let q := p.dropWhile (fun c => c == 32)
  match splitCharAll 61 q [] with
  | [n, v] => some (n, v)
  | _ => none

/-- Modelled from the spec: the external media-type parser for the grammar
`type/<subtype>[; name=value]*` of spec section 6, sufficient for the
`Content-Type` values the spec discusses. -/
def parseMime (s : List Nat) : Option Mime :=
  match splitCharAll 59 s [] with
  | [] => none
  | mt :: ps =>
    match splitCharAll 47 mt [] with
    | [ty, sub] =>
      if ty ≠ [] ∧ sub ≠ [] then some ⟨ty, sub, ps.filterMap parseParam⟩
      else none
    | _ => none

/-- Modelled from the spec: `Mime::get_param`, looking a parameter up by its
case-insensitive name and returning its value. -/
def getParam (m : Mime) (name : List Nat) : Option (List Nat) :=
  (m.params.find? (fun kv => kv.1.map lowerAscii == name)).map (fun kv => kv.2)

/-- Modelled from the spec: `FromStr` of `MultipartType`
(src/multipart_type.rs, not among the sources); "unrecognized subtype names
are rejected" (spec section 3). -/
def parseMultipartType (s : List Nat) : Option MultipartType :=
  if s = formDataStr then some .FormData
  else if s = mixedStr then some .Mixed
  else if s = byterangesStr then some .ByteRanges
  else none

/-- `from_data_with_headers` from src/reader.rs: find the Content-Type header
case-insensitively, parse its value as a media type, extract the `boundary`
parameter, check the top-level type is "multipart", parse the subtype - in
exactly that order, each failure mapped to its error. -/
def fromDataWithHeaders (data : List Nat) (headers : List (List Nat × List Nat)) :
    Except MultipartError MultipartReader :=
  match headers.find? (fun kv => kv.1.map lowerAscii == contentTypeKey) with
  | none => .error .NoContentType
  | some kv =>
    match parseMime kv.2 with
    | none => .error .InvalidContentType
    | some ct =>
      match getParam ct boundaryKey with
      | none => .error .InvalidBoundary
      | some b =>
        if ct.mainType ≠ multipartStr then .error .InvalidContentType
        else
          match parseMultipartType ct.subType with
          | none => .error .InvalidMultipartType
          | some t => .ok ⟨utf8Encode b, data, .FirstBoundary, t, none⟩

/-- Source description of one part of a well-formed multipart body: its header
(name, value) pairs as code-point strings, and its body as a list of byte
lines (each to be terminated by CRLF in the serialized body). -/
structure PartSpec where
  headers : List (List Nat × List Nat)
  body : List (List Nat)
  deriving DecidableEq, Repr

/-- Byte rendering of one header line `name: value` (without terminator). -/
def encodeHeaderLine (h : List Nat × List Nat) : List Nat :=
  utf8Encode (h.1 ++ 58 :: 32 :: h.2)

/-- Byte rendering of a header section: one CRLF-terminated line per pair. -/
def hdrBytes (hs : List (List Nat × List Nat)) : List Nat :=
  (hs.map (fun h => encodeHeaderLine h ++ [13, 10])).flatten

/-- Byte rendering of a body: each line CRLF-terminated. -/
def bodyBytes (ls : List (List Nat)) : List Nat :=
  (ls.map (fun l => l ++ [13, 10])).flatten

/-- Bytes of one part after its opening boundary line: header lines, a blank
line, body lines. -/
def innerBytes (p : PartSpec) : List Nat :=
  hdrBytes p.headers ++ 13 :: 10 :: bodyBytes p.body

/-- Bytes of a well-formed body after the first boundary line: each part's
inner bytes followed by the next boundary line. -/
def restData (boundary : List Nat) : List PartSpec → List Nat
  | [] => []
  | p :: ps => innerBytes p ++ boundary ++ 13 :: 10 :: restData boundary ps

/-- A well-formed multipart body over `boundary`: every part is opened by a
CRLF-terminated boundary line, followed by its CRLF-terminated header lines, a
blank line, its CRLF-terminated body lines, and a subsequent boundary line. -/
def serializeBody (boundary : List Nat) (parts : List PartSpec) : List Nat :=
  boundary ++ 13 :: 10 :: restData boundary parts

/-- Well-formedness of one header pair: name and value are scalar strings, do
not contain the ": " separator, and their rendered line contains no CRLF. -/
def wfHeaderPair (h : List Nat × List Nat) : Bool :=
  h.1.all validScalar && h.2.all validScalar &&
  (findSep h.1).isNone && (findSep h.2).isNone &&
  (findCRLF (encodeHeaderLine h)).isNone

/-- Well-formedness of one body line: no CRLF inside, and it does not start
with the boundary bytes. -/
def wfBodyLine (boundary l : List Nat) : Bool :=
  (findCRLF l).isNone && !(boundary.isPrefixOf l)

/-- Well-formedness of one part. -/
def wfPart (boundary : List Nat) (p : PartSpec) : Bool :=
  p.headers.all wfHeaderPair && p.body.all (wfBodyLine boundary)

/-- Well-formedness of a whole body: the boundary contains no CRLF and every
part is well-formed. -/
def wfBody (boundary : List Nat) (parts : List PartSpec) : Bool :=
  (findCRLF boundary).isNone && parts.all (wfPart boundary)

/-- The `MultipartItem` a well-formed part should produce: its header pairs,
and its body lines concatenated with the CRLF terminators stripped. -/
def expectedItem (p : PartSpec) : MultipartItem :=
  ⟨p.headers, p.body.flatten⟩

theorem take_len_append (l r : List Nat) : (l ++ r).take l.length = l := by
  simp

theorem drop_len_append (l r : List Nat) (k : Nat) :
    (l ++ r).drop (l.length + k) = r.drop k := by
  induction l with
  | nil => simp
  | cons a l ih => simpa [Nat.succ_add] using ih

theorem findCRLF_cons (a : Nat) (rest : List Nat) :
    findCRLF (a :: rest) =
      if a = 13 ∧ rest.head? = some 10 then some 0
      else (findCRLF rest).map (· + 1) := rfl

theorem findCRLF_append_none (l r : List Nat) (h : findCRLF l = none) :
    findCRLF (l ++ 13 :: 10 :: r) = some l.length := by
  induction l with
  | nil => simp [findCRLF]
  | cons a l ih =>
    rw [findCRLF_cons] at h
    by_cases hc : a = 13 ∧ l.head? = some 10
    · rw [if_pos hc] at h; exact absurd h (by simp)
    · rw [if_neg hc] at h
      have hl : findCRLF l = none := by
        cases hfl : findCRLF l with
        | none => rfl
        | some i => rw [hfl] at h; exact absurd h (by simp)
      have hc2 : ¬(a = 13 ∧ (l ++ 13 :: 10 :: r).head? = some 10) := by
        intro ⟨ha, hh⟩
        cases l with
        | nil => simp at hh
        | cons b l' => exact hc ⟨ha, by simpa using hh⟩
      rw [List.cons_append, findCRLF_cons, if_neg hc2, ih hl]
      simp

theorem findCRLF_some_bound (l : List Nat) (i : Nat) (h : findCRLF l = some i) :
    i + 2 ≤ l.length := by
  induction l generalizing i with
  | nil => simp [findCRLF] at h
  | cons a rest ih =>
    rw [findCRLF_cons] at h
    by_cases hc : a = 13 ∧ rest.head? = some 10
    · rw [if_pos hc] at h
      obtain ⟨-, hh⟩ := hc
      cases rest with
      | nil => simp at hh
      | cons b r' =>
        have : i = 0 := by simpa using h.symm
        subst this; simp
    · rw [if_neg hc] at h
      cases hfl : findCRLF rest with
      | none => rw [hfl] at h; simp at h
      | some j =>
        rw [hfl] at h
        have hij : i = j + 1 := by simpa using h.symm
        subst hij
        have := ih j hfl
        simp; omega

theorem findCRLF_append_isSome (l r : List Nat) :
    (findCRLF (l ++ 13 :: 10 :: r)).isSome = true := by
  induction l with
  | nil => simp [findCRLF]
  | cons a l ih =>
    rw [List.cons_append, findCRLF_cons]
    by_cases hc : a = 13 ∧ (l ++ 13 :: 10 :: r).head? = some 10
    · simp [hc]
    · rw [if_neg hc]
      cases hfl : findCRLF (l ++ 13 :: 10 :: r) with
      | none => rw [hfl] at ih; simp at ih
      | some j => simp

theorem findSep_cons (a : Nat) (rest : List Nat) :
    findSep (a :: rest) =
      if a = 58 ∧ rest.head? = some 32 then some 0
      else (findSep rest).map (· + 1) := rfl

theorem findSep_append_none (l r : List Nat) (h : findSep l = none) :
    findSep (l ++ 58 :: 32 :: r) = some l.length := by
  induction l with
  | nil => simp [findSep]
  | cons a l ih =>
    rw [findSep_cons] at h
    by_cases hc : a = 58 ∧ l.head? = some 32
    · rw [if_pos hc] at h; exact absurd h (by simp)
    · rw [if_neg hc] at h
      have hl : findSep l = none := by
        cases hfl : findSep l with
        | none => rfl
        | some i => rw [hfl] at h; exact absurd h (by simp)
      have hc2 : ¬(a = 58 ∧ (l ++ 58 :: 32 :: r).head? = some 32) := by
        intro ⟨ha, hh⟩
        cases l with
        | nil => simp at hh
        | cons b l' => exact hc ⟨ha, by simpa using hh⟩
      rw [List.cons_append, findSep_cons, if_neg hc2, ih hl]
      simp

theorem splitSepFuel_of_none (fuel : Nat) (s : List Nat) (h : findSep s = none) :
    splitSepFuel fuel s = [s] := by
  cases fuel with
  | zero => rfl
  | succ n => simp [splitSepFuel, h]

theorem splitColonSpace_of_none (s : List Nat) (h : findSep s = none) :
    splitColonSpace s = [s] := splitSepFuel_of_none _ _ h

theorem splitColonSpace_sep (n v : List Nat) (hn : findSep n = none)
    (hv : findSep v = none) :
    splitColonSpace (n ++ 58 :: 32 :: v) = [n, v] := by
  have hfind := findSep_append_none n v hn
  have hlen : (n ++ 58 :: 32 :: v).length = n.length + 2 + v.length := by
    simp; omega
  unfold splitColonSpace
  rw [hlen]
  have : n.length + 2 + v.length = (n.length + 1 + v.length) + 1 := by omega
  rw [this, splitSepFuel, hfind]
  have hdrop : (n ++ 58 :: 32 :: v).drop (n.length + 2) = v := by
    have := drop_len_append n (58 :: 32 :: v) 2
    simpa using this
  show (n ++ 58 :: 32 :: v).take n.length ::
      splitSepFuel (n.length + 1 + v.length) ((n ++ 58 :: 32 :: v).drop (n.length + 2)) = [n, v]
  rw [take_len_append, hdrop, splitSepFuel_of_none _ _ hv]

theorem rustTrim_ne_nil (s : List Nat) (c : Nat) (hc : c ∈ s)
    (hw : isWhitespaceChar c = false) : rustTrim s ≠ [] := by
  intro h
  unfold rustTrim at h
  rw [List.reverse_eq_nil_iff, List.dropWhile_eq_nil_iff] at h
  have hc2 : c ∈ s.takeWhile isWhitespaceChar ++ s.dropWhile isWhitespaceChar := by
    rw [List.takeWhile_append_dropWhile]; exact hc
  rcases List.mem_append.mp hc2 with hmem | hmem
  · exact absurd (List.mem_takeWhile_imp hmem) (by simp [hw])
  · have := h c (List.mem_reverse.mpr hmem)
    simp [hw] at this


theorem pollStep_cont_length (r r' : MultipartReader) (h : pollStep r = .cont r') :
    r'.data.length + 2 ≤ r.data.length := by
  obtain ⟨bd, dt, st, t, pend⟩ := r
  unfold pollStep at h
  cases hf : findCRLF dt <;> rw [hf] at h
  · simp at h
  · case some idx =>
    have hb := findCRLF_some_bound dt idx hf
    cases st <;> simp only [] at h
    · simp at h
    · simp only [StepRes.cont.injEq] at h
      subst h
      simp [List.length_drop]; omega
    · split at h
      · split at h
        · simp at h
        · simp only [StepRes.cont.injEq] at h
          subst h
          simp [List.length_drop]; omega
      · split at h
        · simp only [StepRes.cont.injEq] at h
          subst h
          simp [List.length_drop]; omega
        · simp at h
    · split at h
      · simp at h
      · split at h
        · simp only [StepRes.cont.injEq] at h
          subst h
          simp [List.length_drop]; omega
        · split at h
          · simp only [StepRes.cont.injEq] at h
            subst h
            simp [List.length_drop]; omega
          · simp at h

theorem pollStep_of_no_crlf (r : MultipartReader) (h : findCRLF r.data = none) :
    pollStep r = .done r (.ready none) := by
  unfold pollStep
  rw [h]

theorem pollNextAux_step (n : Nat) (r : MultipartReader) (h : r.data.length ≤ n) :
    pollNextAux (n + 1) r = pollNextAux n r := by
  induction n generalizing r with
  | zero =>
    have hnil : r.data = [] := List.length_eq_zero.mp (Nat.le_zero.mp h)
    have hstep := pollStep_of_no_crlf r (by rw [hnil]; rfl)
    show pollNextAux (0 + 1) r = pollNextAux 0 r
    conv_lhs => rw [pollNextAux]
    rw [hstep]
    rfl
  | succ n ih =>
    rw [pollNextAux, pollNextAux]
    cases hs : pollStep r with
    | done r' out => rfl
    | cont r' =>
      simp only []
      have := pollStep_cont_length r r' hs
      exact ih r' (by omega)

theorem pollNextAux_eq_pollNext (m : Nat) (r : MultipartReader)
    (h : r.data.length ≤ m) : pollNextAux m r = pollNext r := by
  induction m with
  | zero =>
    unfold pollNext
    rw [Nat.le_zero.mp h]
  | succ m ih =>
    by_cases hle : r.data.length ≤ m
    · rw [pollNextAux_step m r hle, ih hle]
    · have : r.data.length = m + 1 := by omega
      unfold pollNext
      rw [this]

theorem pollNext_of_cont (r r' : MultipartReader) (h : pollStep r = .cont r') :
    pollNext r = pollNext r' := by
  have h2 := pollStep_cont_length r r' h
  have hl : r.data.length = (r.data.length - 1) + 1 := by omega
  unfold pollNext
  rw [hl, pollNextAux, h]
  simp only []
  have := pollNextAux_eq_pollNext (r.data.length - 1) r' (by omega)
  unfold pollNext at this
  exact this

theorem pollNext_of_done (r r' : MultipartReader) (out : PollOut)
    (h : pollStep r = .done r' out) : pollNext r = (r', out) := by
  cases hlen : r.data.length with
  | zero =>
    have hnil : r.data = [] := List.length_eq_zero.mp hlen
    have hstep := pollStep_of_no_crlf r (by rw [hnil]; rfl)
    rw [hstep] at h
    simp only [StepRes.done.injEq] at h
    obtain ⟨h1, h2⟩ := h
    unfold pollNext
    rw [hlen, h1, ← h2]
    rfl
  | succ k =>
    unfold pollNext
    rw [hlen, pollNextAux, h]

theorem utf8Step_length (b1 c : Nat) (rest rest2 : List Nat)
    (h : utf8Step b1 rest = some (c, rest2)) : rest2.length ≤ rest.length := by
  unfold utf8Step at h
  repeat' split at h
  all_goals simp_all
  all_goals (obtain ⟨h1, h2⟩ := h; subst h2; omega)

theorem utf8DecodeFuel_congr (f : Nat) : ∀ (g : Nat) (bs : List Nat),
    bs.length ≤ f → bs.length ≤ g → utf8DecodeFuel f bs = utf8DecodeFuel g bs := by
  induction f with
  | zero =>
    intro g bs hf hg
    have : bs = [] := List.length_eq_zero.mp (Nat.le_zero.mp hf)
    subst this
    cases g <;> rfl
  | succ f ih =>
    intro g bs hf hg
    cases bs with
    | nil => cases g <;> rfl
    | cons b rest =>
      cases g with
      | zero => simp at hg
      | succ g2 =>
        rw [utf8DecodeFuel, utf8DecodeFuel]
        cases hs : utf8Step b rest with
        | none => rfl
        | some pr =>
          obtain ⟨c, rest2⟩ := pr
          simp only []
          have hlen := utf8Step_length b c rest rest2 hs
          simp only [List.length_cons] at hf hg
          rw [ih g2 rest2 (by omega) (by omega)]

theorem utf8Decode_cons_step (b1 : Nat) (rest : List Nat) (c : Nat) (bs : List Nat)
    (hstep : utf8Step b1 rest = some (c, bs)) :
    utf8Decode (b1 :: rest) = (utf8Decode bs).map (c :: ·) := by
  have hlen := utf8Step_length b1 c rest bs hstep
  unfold utf8Decode
  rw [List.length_cons, utf8DecodeFuel, hstep]
  simp only []
  rw [utf8DecodeFuel_congr rest.length bs.length bs hlen (Nat.le_refl _)]

theorem utf8Step_enc1 (c : Nat) (h1 : c < 0x80) (bs : List Nat) :
    utf8Step c bs = some (c, bs) := by
  unfold utf8Step
  rw [if_pos h1]

theorem utf8Step_enc2 (c : Nat) (h1 : ¬ c < 0x80) (h2 : c < 0x800) (bs : List Nat) :
    utf8Step (0xC0 + c / 0x40) ((0x80 + c % 0x40) :: bs) = some (c, bs) := by
  unfold utf8Step
  rw [if_neg (by omega), if_pos (show 0xC2 ≤ 0xC0 + c / 0x40 ∧ 0xC0 + c / 0x40 ≤ 0xDF by
    constructor <;> omega)]
  simp only []
  rw [if_pos (show 0x80 ≤ 0x80 + c % 0x40 ∧ 0x80 + c % 0x40 ≤ 0xBF by constructor <;> omega)]
  have harith : ((0xC0 + c / 0x40) - 0xC0) * 0x40 + ((0x80 + c % 0x40) - 0x80) = c := by omega
  rw [harith]

theorem utf8Step_enc3 (c : Nat) (h2 : ¬ c < 0x800) (h3 : c < 0x10000)
    (hs : c < 0xD800 ∨ 0xE000 ≤ c) (bs : List Nat) :
    utf8Step (0xE0 + c / 0x1000)
      ((0x80 + c / 0x40 % 0x40) :: (0x80 + c % 0x40) :: bs) = some (c, bs) := by
  have hdd : c / 0x40 / 0x40 = c / 0x1000 := by omega
  unfold utf8Step
  rw [if_neg (by omega), if_neg (by omega),
    if_pos (show 0xE0 ≤ 0xE0 + c / 0x1000 ∧ 0xE0 + c / 0x1000 ≤ 0xEF by constructor <;> omega)]
  simp only []
  have hcond : (if 0xE0 + c / 0x1000 = 0xE0 then (0xA0 : Nat) else 0x80) ≤
        0x80 + c / 0x40 % 0x40 ∧
      0x80 + c / 0x40 % 0x40 ≤ (if 0xE0 + c / 0x1000 = 0xED then (0x9F : Nat) else 0xBF) ∧
      0x80 ≤ 0x80 + c % 0x40 ∧ 0x80 + c % 0x40 ≤ 0xBF := by
    refine ⟨?_, ?_, by omega, by omega⟩
    · split <;> omega
    · split <;> omega
  rw [if_pos hcond]
  have harith : ((0xE0 + c / 0x1000) - 0xE0) * 0x1000 +
      ((0x80 + c / 0x40 % 0x40) - 0x80) * 0x40 + ((0x80 + c % 0x40) - 0x80) = c := by omega
  rw [harith]

theorem utf8Step_enc4 (c : Nat) (h3 : ¬ c < 0x10000) (h4 : c < 0x110000) (bs : List Nat) :
    utf8Step (0xF0 + c / 0x40000)
      ((0x80 + c / 0x1000 % 0x40) :: (0x80 + c / 0x40 % 0x40) :: (0x80 + c % 0x40) :: bs) =
      some (c, bs) := by
  have hdd1 : c / 0x40 / 0x40 = c / 0x1000 := by omega
  have hdd2 : c / 0x1000 / 0x40 = c / 0x40000 := by omega
  unfold utf8Step
  rw [if_neg (by omega), if_neg (by omega), if_neg (by omega),
    if_pos (show 0xF0 ≤ 0xF0 + c / 0x40000 ∧ 0xF0 + c / 0x40000 ≤ 0xF4 by constructor <;> omega)]
  simp only []
  have hcond : (if 0xF0 + c / 0x40000 = 0xF0 then (0x90 : Nat) else 0x80) ≤
        0x80 + c / 0x1000 % 0x40 ∧
      0x80 + c / 0x1000 % 0x40 ≤ (if 0xF0 + c / 0x40000 = 0xF4 then (0x8F : Nat) else 0xBF) ∧
      0x80 ≤ 0x80 + c / 0x40 % 0x40 ∧ 0x80 + c / 0x40 % 0x40 ≤ 0xBF ∧
      0x80 ≤ 0x80 + c % 0x40 ∧ 0x80 + c % 0x40 ≤ 0xBF := by
    refine ⟨?_, ?_, by omega, by omega, by omega, by omega⟩
    · split <;> omega
    · split <;> omega
  rw [if_pos hcond]
  have harith : ((0xF0 + c / 0x40000) - 0xF0) * 0x40000 +
      ((0x80 + c / 0x1000 % 0x40) - 0x80) * 0x1000 +
      ((0x80 + c / 0x40 % 0x40) - 0x80) * 0x40 + ((0x80 + c % 0x40) - 0x80) = c := by omega
  rw [harith]

theorem utf8Decode_encodeChar (c : Nat) (h : validScalar c = true) (bs : List Nat) :
    utf8Decode (utf8EncodeChar c ++ bs) = (utf8Decode bs).map (c :: ·) := by
  have hv : c < 0xD800 ∨ (0xE000 ≤ c ∧ c < 0x110000) := by
    simpa [validScalar] using h
  by_cases h1 : c < 0x80
  · rw [utf8EncodeChar, if_pos h1]
    rw [show ([c] ++ bs) = c :: bs by simp]
    exact utf8Decode_cons_step c bs c bs (utf8Step_enc1 c h1 bs)
  · by_cases h2 : c < 0x800
    · rw [utf8EncodeChar, if_neg h1, if_pos h2]
      rw [show ([0xC0 + c / 0x40, 0x80 + c % 0x40] ++ bs) =
        (0xC0 + c / 0x40) :: (0x80 + c % 0x40) :: bs by simp]
      exact utf8Decode_cons_step _ _ c bs (utf8Step_enc2 c h1 h2 bs)
    · by_cases h3 : c < 0x10000
      · rw [utf8EncodeChar, if_neg h1, if_neg h2, if_pos h3]
        rw [show ([0xE0 + c / 0x1000, 0x80 + c / 0x40 % 0x40, 0x80 + c % 0x40] ++ bs) =
          (0xE0 + c / 0x1000) :: (0x80 + c / 0x40 % 0x40) :: (0x80 + c % 0x40) :: bs by simp]
        exact utf8Decode_cons_step _ _ c bs (utf8Step_enc3 c h2 h3 (by omega) bs)
      · rw [utf8EncodeChar, if_neg h1, if_neg h2, if_neg h3]
        rw [show ([0xF0 + c / 0x40000, 0x80 + c / 0x1000 % 0x40,
            0x80 + c / 0x40 % 0x40, 0x80 + c % 0x40] ++ bs) =
          (0xF0 + c / 0x40000) :: (0x80 + c / 0x1000 % 0x40) ::
            (0x80 + c / 0x40 % 0x40) :: (0x80 + c % 0x40) :: bs by simp]
        exact utf8Decode_cons_step _ _ c bs (utf8Step_enc4 c h3 (by omega) bs)

theorem utf8Decode_encode_append (cs : List Nat) (h : cs.all validScalar = true)
    (bs : List Nat) :
    utf8Decode (utf8Encode cs ++ bs) = (utf8Decode bs).map (cs ++ ·) := by
  induction cs with
  | nil =>
    simp [utf8Encode]
  | cons c cs ih =>
    simp only [List.all_cons, Bool.and_eq_true] at h
    rw [utf8Encode, List.map_cons, List.flatten_cons, List.append_assoc]
    rw [utf8Decode_encodeChar c h.1 _]
    rw [show (cs.map utf8EncodeChar).flatten = utf8Encode cs from rfl]
    rw [ih h.2, Option.map_map]
    rfl

theorem utf8Decode_encode (cs : List Nat) (h : cs.all validScalar = true) :
    utf8Decode (utf8Encode cs) = some cs := by
  have h2 := utf8Decode_encode_append cs h []
  rw [show utf8Decode [] = some [] from rfl] at h2
  simpa using h2

theorem isPrefixOf_append_self (l r : List Nat) : l.isPrefixOf (l ++ r) = true := by
  rw [ List.isPrefixOf_iff_prefix]
  exact List.prefix_append l r

theorem isPrefixOf_self (l : List Nat) : l.isPrefixOf l = true := by
  rw [ List.isPrefixOf_iff_prefix]

theorem drop_two_append (l rest : List Nat) :
    (l ++ 13 :: 10 :: rest).drop (l.length + 2) = rest := by
  have := drop_len_append l (13 :: 10 :: rest) 2
  simpa using this

theorem pollStep_blank (bd rest : List Nat) (t : MultipartType)
    (pend : Option MultipartItem) :
    pollStep ⟨bd, 13 :: 10 :: rest, .Headers, t, pend⟩ =
      .cont ⟨bd, rest, .Boundary, t, some (pend.getD ⟨[], []⟩)⟩ := by
  unfold pollStep
  have hf : findCRLF (13 :: 10 :: rest) = some 0 := by
    rw [findCRLF_cons, if_pos (by simp)]
  rw [show (⟨bd, 13 :: 10 :: rest, .Headers, t, pend⟩ : MultipartReader).data =
    13 :: 10 :: rest from rfl]
  rw [hf]
  simp only [List.take_zero]
  rw [show utf8Decode [] = some [] from rfl]
  simp only []
  rw [if_pos (show rustTrim [] = [] from rfl)]
  rfl

theorem pollStep_boundary_emit (bd rest : List Nat) (t : MultipartType)
    (it : MultipartItem) (hno : findCRLF bd = none) :
    pollStep ⟨bd, bd ++ 13 :: 10 :: rest, .Boundary, t, some it⟩ =
      .done ⟨bd, rest, .Headers, t, none⟩ (.ready (some (.ok it))) := by
  unfold pollStep
  rw [show (⟨bd, bd ++ 13 :: 10 :: rest, .Boundary, t, some it⟩ : MultipartReader).data =
    bd ++ 13 :: 10 :: rest from rfl]
  rw [findCRLF_append_none _ _ hno]
  simp only [take_len_append]
  rw [show isBoundary ⟨bd, bd ++ 13 :: 10 :: rest, .Boundary, t, some it⟩ bd = true from
    isPrefixOf_self bd]
  simp only [if_true]
  rw [drop_two_append]

theorem pollStep_first_boundary (bd rest : List Nat) (t : MultipartType)
    (pend : Option MultipartItem) (hno : findCRLF bd = none) :
    pollStep ⟨bd, bd ++ 13 :: 10 :: rest, .FirstBoundary, t, pend⟩ =
      .cont ⟨bd, rest, .Headers, t, pend⟩ := by
  unfold pollStep
  rw [show (⟨bd, bd ++ 13 :: 10 :: rest, .FirstBoundary, t, pend⟩ : MultipartReader).data =
    bd ++ 13 :: 10 :: rest from rfl]
  rw [findCRLF_append_none _ _ hno]
  simp only [take_len_append]
  rw [show isBoundary ⟨bd, bd ++ 13 :: 10 :: rest, .FirstBoundary, t, pend⟩ bd = true from
    isPrefixOf_self bd]
  simp only [if_true]
  rw [drop_two_append]

theorem pollStep_body_line (bd l rest : List Nat) (t : MultipartType)
    (hs : List (List Nat × List Nat)) (ad : List Nat)
    (hno : findCRLF l = none) (hnb : bd.isPrefixOf l = false) :
    pollStep ⟨bd, l ++ 13 :: 10 :: rest, .Boundary, t, some ⟨hs, ad⟩⟩ =
      .cont ⟨bd, rest, .Boundary, t, some ⟨hs, ad ++ l⟩⟩ := by
  unfold pollStep
  rw [show (⟨bd, l ++ 13 :: 10 :: rest, .Boundary, t, some ⟨hs, ad⟩⟩ : MultipartReader).data =
    l ++ 13 :: 10 :: rest from rfl]
  rw [findCRLF_append_none _ _ hno]
  simp only [take_len_append]
  rw [show isBoundary ⟨bd, l ++ 13 :: 10 :: rest, .Boundary, t, some ⟨hs, ad⟩⟩ l = false from hnb]
  simp only [Bool.false_eq_true, if_false]
  rw [drop_two_append]

theorem pollStep_header_line (bd rest : List Nat) (t : MultipartType)
    (h : List Nat × List Nat) (acc : List (List Nat × List Nat)) (ad : List Nat)
    (hwf : wfHeaderPair h = true) :
    pollStep ⟨bd, encodeHeaderLine h ++ 13 :: 10 :: rest, .Headers, t, some ⟨acc, ad⟩⟩ =
      .cont ⟨bd, rest, .Headers, t, some ⟨acc ++ [h], ad⟩⟩ := by
  unfold wfHeaderPair at hwf
  simp only [Bool.and_eq_true, Option.isNone_iff_eq_none] at hwf
  obtain ⟨⟨⟨⟨hv1, hv2⟩, hs1⟩, hs2⟩, hcr⟩ := hwf
  rw [show encodeHeaderLine h = utf8Encode (h.1 ++ 58 :: 32 :: h.2) from rfl] at hcr ⊢
  unfold pollStep
  rw [show (⟨bd, utf8Encode (h.1 ++ 58 :: 32 :: h.2) ++ 13 :: 10 :: rest, .Headers, t,
    some ⟨acc, ad⟩⟩ : MultipartReader).data =
    utf8Encode (h.1 ++ 58 :: 32 :: h.2) ++ 13 :: 10 :: rest from rfl]
  rw [findCRLF_append_none _ _ hcr]
  simp only [take_len_append]
  have hall : (h.1 ++ 58 :: 32 :: h.2).all validScalar = true := by
    simp only [List.all_append, List.all_cons, Bool.and_eq_true]
    exact ⟨hv1, by decide, by decide, hv2⟩
  rw [utf8Decode_encode _ hall]
  simp only []
  rw [if_neg (rustTrim_ne_nil _ 58 (by simp) (by decide))]
  rw [splitColonSpace_sep h.1 h.2 hs1 hs2]
  simp only []
  rw [drop_two_append]
  rfl

theorem pollStep_headers_pending_none (bd dt : List Nat) (t : MultipartType)
    (idx : Nat) (hf : findCRLF dt = some idx) :
    pollStep ⟨bd, dt, .Headers, t, none⟩ =
      pollStep ⟨bd, dt, .Headers, t, some ⟨[], []⟩⟩ := by
  unfold pollStep
  simp only []
  rw [hf]
  rfl

theorem pollNext_headers_pending_none (bd dt : List Nat) (t : MultipartType)
    (hf : (findCRLF dt).isSome = true) :
    pollNext ⟨bd, dt, .Headers, t, none⟩ = pollNext ⟨bd, dt, .Headers, t, some ⟨[], []⟩⟩ := by
  obtain ⟨idx, hidx⟩ := Option.isSome_iff_exists.mp hf
  cases hl : dt.length with
  | zero =>
    have : dt = [] := List.length_eq_zero.mp hl
    subst this
    simp [findCRLF] at hidx
  | succ k =>
    unfold pollNext
    simp only []
    rw [hl, pollNextAux, pollNextAux, pollStep_headers_pending_none bd dt t idx hidx]

theorem pollNext_headers_chain (bd : List Nat) (t : MultipartType)
    (hs : List (List Nat × List Nat)) :
    ∀ (acc : List (List Nat × List Nat)) (ad rest : List Nat),
    hs.all wfHeaderPair = true →
    pollNext ⟨bd, hdrBytes hs ++ rest, .Headers, t, some ⟨acc, ad⟩⟩ =
      pollNext ⟨bd, rest, .Headers, t, some ⟨acc ++ hs, ad⟩⟩ := by
  induction hs with
  | nil =>
    intro acc ad rest hwf
    simp [hdrBytes]
  | cons h hs ih =>
    intro acc ad rest hwf
    simp only [List.all_cons, Bool.and_eq_true] at hwf
    have hdata : hdrBytes (h :: hs) ++ rest =
        encodeHeaderLine h ++ 13 :: 10 :: (hdrBytes hs ++ rest) := by
      simp [hdrBytes]
    rw [hdata]
    rw [pollNext_of_cont _ _ (pollStep_header_line bd (hdrBytes hs ++ rest) t h acc ad hwf.1)]
    rw [ih (acc ++ [h]) ad rest hwf.2]
    have hacc : acc ++ [h] ++ hs = acc ++ h :: hs := by simp
    rw [hacc]

theorem pollNext_body_chain (bd : List Nat) (t : MultipartType) (ls : List (List Nat)) :
    ∀ (hs : List (List Nat × List Nat)) (ad rest : List Nat),
    ls.all (wfBodyLine bd) = true →
    pollNext ⟨bd, bodyBytes ls ++ rest, .Boundary, t, some ⟨hs, ad⟩⟩ =
      pollNext ⟨bd, rest, .Boundary, t, some ⟨hs, ad ++ ls.flatten⟩⟩ := by
  induction ls with
  | nil =>
    intro hs ad rest hwf
    simp [bodyBytes]
  | cons l ls ih =>
    intro hs ad rest hwf
    simp only [List.all_cons, Bool.and_eq_true] at hwf
    have hl := hwf.1
    unfold wfBodyLine at hl
    simp only [Bool.and_eq_true, Option.isNone_iff_eq_none, Bool.not_eq_true'] at hl
    have hdata : bodyBytes (l :: ls) ++ rest =
        l ++ 13 :: 10 :: (bodyBytes ls ++ rest) := by
      simp [bodyBytes]
    rw [hdata]
    rw [pollNext_of_cont _ _ (pollStep_body_line bd l (bodyBytes ls ++ rest) t hs ad hl.1 hl.2)]
    rw [ih hs (ad ++ l) rest hwf.2]
    have hacc : ad ++ l ++ ls.flatten = ad ++ (l :: ls).flatten := by simp
    rw [hacc]

theorem pollNext_emit (bd : List Nat) (t : MultipartType) (p : PartSpec)
    (rest : List Nat) (hbd : findCRLF bd = none) (hp : wfPart bd p = true) :
    pollNext ⟨bd, innerBytes p ++ bd ++ 13 :: 10 :: rest, .Headers, t, none⟩ =
      (⟨bd, rest, .Headers, t, none⟩, .ready (some (.ok (expectedItem p)))) := by
  unfold wfPart at hp
  simp only [Bool.and_eq_true] at hp
  have hdata : innerBytes p ++ bd ++ 13 :: 10 :: rest =
      hdrBytes p.headers ++ 13 :: 10 :: (bodyBytes p.body ++ (bd ++ 13 :: 10 :: rest)) := by
    simp [innerBytes]
  rw [hdata]
  rw [pollNext_headers_pending_none bd _ t
    (findCRLF_append_isSome (hdrBytes p.headers) (bodyBytes p.body ++ (bd ++ 13 :: 10 :: rest)))]
  rw [pollNext_headers_chain bd t p.headers [] [] _ hp.1]
  simp only [List.nil_append]
  rw [pollNext_of_cont _ _ (pollStep_blank bd (bodyBytes p.body ++ (bd ++ 13 :: 10 :: rest)) t
    (some ⟨p.headers, []⟩))]
  simp only [Option.getD_some]
  rw [pollNext_body_chain bd t p.body p.headers [] (bd ++ 13 :: 10 :: rest) hp.2]
  simp only [List.nil_append]
  rw [show (⟨bd, bd ++ 13 :: 10 :: rest, .Boundary, t,
    some ⟨p.headers, p.body.flatten⟩⟩ : MultipartReader) =
    ⟨bd, bd ++ 13 :: 10 :: rest, .Boundary, t, some (expectedItem p)⟩ from rfl]
  exact pollNext_of_done _ _ _ (pollStep_boundary_emit bd rest t (expectedItem p) hbd)

theorem pollAll_congr (n : Nat) (r r2 : MultipartReader)
    (h : pollNext r = pollNext r2) : pollAll (n + 1) r = pollAll (n + 1) r2 := by
  rw [pollAll, pollAll, h]

theorem pollAll_loop (bd : List Nat) (t : MultipartType) (ps : List PartSpec) :
    ∀ (extra : Nat), findCRLF bd = none → ps.all (wfPart bd) = true →
    pollAll (ps.length + extra) ⟨bd, restData bd ps, .Headers, t, none⟩ =
      ps.map (fun p => .ok (expectedItem p)) := by
  induction ps with
  | nil =>
    intro extra hbd hps
    cases extra with
    | zero => rfl
    | succ e =>
      have hdone : pollNext ⟨bd, restData bd [], .Headers, t, none⟩ =
          (⟨bd, restData bd [], .Headers, t, none⟩, .ready none) :=
        pollNext_of_done _ _ _ (pollStep_of_no_crlf _ (by rfl))
      simp only [List.length_nil, Nat.zero_add, pollAll, hdone]
      rfl
  | cons p ps ih =>
    intro extra hbd hps
    simp only [List.all_cons, Bool.and_eq_true] at hps
    have hlen : (p :: ps).length + extra = (ps.length + extra) + 1 := by
      simp [List.length_cons]; omega
    rw [hlen, pollAll]
    have hdata : restData bd (p :: ps) = innerBytes p ++ bd ++ 13 :: 10 :: restData bd ps := by
      rw [restData]
    rw [hdata]
    rw [pollNext_emit bd t p (restData bd ps) hbd hps.1]
    simp only []
    rw [ih extra hbd hps.2, List.map_cons]

/-- C1: for every well-formed multipart body over the configured boundary
containing N parts (each part opened by a CRLF-terminated boundary line,
followed by its header lines, a blank line, its body lines, and a subsequent
boundary line), repeatedly calling `poll_next` produces exactly N `Ok` parts,
in input order, each part's headers being the (name, value) pairs of its
header lines and its body the concatenation of its body lines with the CRLF
terminators stripped. -/
theorem C1_well_formed_body_yields_parts (boundary : List Nat) (parts : List PartSpec)
    (t : MultipartType) (r : MultipartReader)
    (hwf : wfBody boundary parts = true)
    (hr : fromDataWithBoundaryAndType (serializeBody boundary parts) boundary t = .ok r)
    (extra : Nat) :
    pollAll (parts.length + extra) r = parts.map (fun p => .ok (expectedItem p)) := by
  unfold wfBody at hwf
  simp only [Bool.and_eq_true, Option.isNone_iff_eq_none] at hwf
  unfold fromDataWithBoundaryAndType at hr
  simp only [Except.ok.injEq] at hr
  subst hr
  cases hfe : parts.length + extra with
  | zero =>
    have hp0 : parts = [] := List.length_eq_zero.mp (by omega)
    subst hp0
    have he0 : extra = 0 := by simpa using hfe
    subst he0
    rfl
  | succ k =>
    rw [show serializeBody boundary parts =
      boundary ++ 13 :: 10 :: restData boundary parts from rfl]
    rw [pollAll_congr k _ _ (pollNext_of_cont _ _
      (pollStep_first_boundary boundary (restData boundary parts) t none hwf.1))]
    rw [← hfe]
    exact pollAll_loop boundary t parts extra hwf.1 hwf.2

theorem C1_witness :
    wfBody [98] [⟨[([67], [68])], [[120]]⟩, ⟨[], [[]]⟩] = true ∧
    pollAll (2 + 1) ⟨[98], serializeBody [98] [⟨[([67], [68])], [[120]]⟩, ⟨[], [[]]⟩],
        .FirstBoundary, .FormData, none⟩ =
      [.ok ⟨[([67], [68])], [120]⟩, .ok ⟨[], []⟩] := by
  constructor
  · decide
  · have h := C1_well_formed_body_yields_parts [98]
      [⟨[([67], [68])], [[120]]⟩, ⟨[], [[]]⟩] .FormData
      ⟨[98], serializeBody [98] [⟨[([67], [68])], [[120]]⟩, ⟨[], [[]]⟩],
        .FirstBoundary, .FormData, none⟩ (by decide) rfl 1
    simpa using h

/-- C2, counterexample: with the single header `Content-Type: text/plain`, the
value parses as a valid media type whose top-level type is not "multipart",
yet construction fails with `InvalidBoundary`, not `InvalidContentType`: the
missing-boundary check of src/reader.rs lines 76-78 runs before the
top-level-type check of lines 80-82. -/
theorem C2_counterexample :
    parseMime [116, 101, 120, 116, 47, 112, 108, 97, 105, 110] =
      some ⟨[116, 101, 120, 116], [112, 108, 97, 105, 110], []⟩ ∧
    (⟨[116, 101, 120, 116], [112, 108, 97, 105, 110], []⟩ : Mime).mainType ≠ multipartStr ∧
    fromDataWithHeaders []
      [([67, 111, 110, 116, 101, 110, 116, 45, 84, 121, 112, 101],
        [116, 101, 120, 116, 47, 112, 108, 97, 105, 110])] = .error .InvalidBoundary ∧
    fromDataWithHeaders []
      [([67, 111, 110, 116, 101, 110, 116, 45, 84, 121, 112, 101],
        [116, 101, 120, 116, 47, 112, 108, 97, 105, 110])] ≠ .error .InvalidContentType := by
  refine ⟨rfl, by decide, rfl, by decide⟩

/-- C2, amended: when the Content-Type value parses as a valid media type
that does carry a `boundary` parameter but whose top-level type is not
"multipart", construction fails with `InvalidContentType`; when the boundary
parameter is missing (as for plain `text/plain`), the boundary check fires
first and the error is `InvalidBoundary` instead. -/
theorem C2_amended_nonmultipart (data v b : List Nat) (m : Mime)
    (hp : parseMime v = some m) (hb : getParam m boundaryKey = some b)
    (ht : m.mainType ≠ multipartStr) :
    fromDataWithHeaders data
      [([67, 111, 110, 116, 101, 110, 116, 45, 84, 121, 112, 101], v)] =
      .error .InvalidContentType := by
  unfold fromDataWithHeaders
  rw [List.find?_cons_of_pos _ (by rfl)]
  simp only []
  rw [hp]
  simp only []
  rw [hb]
  simp only []
  rw [if_pos ht]

theorem C2_witness :
    parseMime [116, 101, 120, 116, 47, 112, 108, 97, 105, 110, 59, 32, 98, 111,
        117, 110, 100, 97, 114, 121, 61, 120] =
      some ⟨[116, 101, 120, 116], [112, 108, 97, 105, 110],
        [([98, 111, 117, 110, 100, 97, 114, 121], [120])]⟩ ∧
    getParam ⟨[116, 101, 120, 116], [112, 108, 97, 105, 110],
        [([98, 111, 117, 110, 100, 97, 114, 121], [120])]⟩ boundaryKey = some [120] ∧
    fromDataWithHeaders []
      [([67, 111, 110, 116, 101, 110, 116, 45, 84, 121, 112, 101],
        [116, 101, 120, 116, 47, 112, 108, 97, 105, 110, 59, 32, 98, 111, 117, 110,
          100, 97, 114, 121, 61, 120])] = .error .InvalidContentType := by
  refine ⟨rfl, rfl, ?_⟩
  exact C2_amended_nonmultipart [] _ [120] _ rfl rfl (by decide)

/-- C4: once the state is `Eof`, it is never left: every subsequent
`poll_next` call returns `Ready(None)` and leaves the reader (state included)
unchanged, producing no new part. -/
theorem C4_eof_is_absorbing (r : MultipartReader) (h : r.state = .Eof) :
    pollNext r = (r, .ready none) := by
  cases hf : findCRLF r.data with
  | none => exact pollNext_of_done _ _ _ (pollStep_of_no_crlf r hf)
  | some idx =>
    refine pollNext_of_done _ _ _ ?_
    obtain ⟨bd, dt, st, t, pend⟩ := r
    simp only [] at h hf
    subst h
    unfold pollStep
    simp only []
    rw [hf]

theorem C4_witness :
    (⟨[98], [13, 10], .Eof, .FormData, none⟩ : MultipartReader).state = .Eof ∧
    pollNext ⟨[98], [13, 10], .Eof, .FormData, none⟩ =
      (⟨[98], [13, 10], .Eof, .FormData, none⟩, .ready none) :=
  ⟨rfl, C4_eof_is_absorbing _ rfl⟩

/-- C5: a line is classified as a boundary exactly when its bytes begin with
the configured boundary byte string; extra trailing bytes (such as the RFC
2046 terminal marker "--") never prevent the match, and the match need not
cover the whole line. -/
theorem C5_is_boundary_prefix_only (r : MultipartReader) (L extra : List Nat) :
    (isBoundary r L = true ↔ ∃ tl, r.boundary ++ tl = L) ∧
    isBoundary r (r.boundary ++ extra) = true := by
  constructor
  · rw [show isBoundary r L = r.boundary.isPrefixOf L from rfl, List.isPrefixOf_iff_prefix]
    exact Iff.rfl
  · exact isPrefixOf_append_self _ _

/-- C6: construction from a header collection containing
`Content-Type: multipart/form-data; boundary=XYZ` succeeds, with boundary
"XYZ" and multipart type FormData. -/
theorem C6_form_data_resolution (data : List Nat) :
    fromDataWithHeaders data
      [([67, 111, 110, 116, 101, 110, 116, 45, 84, 121, 112, 101],
        [109, 117, 108, 116, 105, 112, 97, 114, 116, 47, 102, 111, 114, 109, 45,
          100, 97, 116, 97, 59, 32, 98, 111, 117, 110, 100, 97, 114, 121, 61, 88, 89, 90])] =
      .ok ⟨[88, 89, 90], data, .FirstBoundary, .FormData, none⟩ := rfl

/-- C7: when the unconsumed buffer contains no CRLF, `poll_next` yields no
part and leaves the whole reader (state, cursor, pending part) unchanged;
the trailing undelimited bytes are never surfaced. -/
theorem C7_no_terminator_no_effect (r : MultipartReader)
    (h : findCRLF r.data = none) : pollNext r = (r, .ready none) :=
  pollNext_of_done _ _ _ (pollStep_of_no_crlf r h)

theorem C7_witness :
    findCRLF (⟨[98], [65, 13], .FirstBoundary, .Mixed, none⟩ : MultipartReader).data = none ∧
    pollNext ⟨[98], [65, 13], .FirstBoundary, .Mixed, none⟩ =
      (⟨[98], [65, 13], .FirstBoundary, .Mixed, none⟩, .ready none) :=
  ⟨rfl, C7_no_terminator_no_effect _ rfl⟩

/-- C3: in the `Headers` state, for the scanned line (the bytes before the
first CRLF): if it fails to decode as UTF-8, or it is not blank and does not
split on ": " into exactly two pieces, `poll_next` immediately returns
`InvalidItemHeader` and the state becomes `Eof`; if it is not blank and
splits into exactly two pieces (n, v), that pair is appended to the pending
part's headers and the loop continues without error. -/
theorem C3_reading_headers_line_cases (r : MultipartReader) (idx : Nat)
    (hst : r.state = .Headers) (hf : findCRLF r.data = some idx) :
    (utf8Decode (r.data.take idx) = none →
      (pollNext r).2 = .ready (some (.error .InvalidItemHeader)) ∧
      (pollNext r).1.state = .Eof) ∧
    (∀ cs, utf8Decode (r.data.take idx) = some cs → rustTrim cs ≠ [] →
      (splitColonSpace cs).length ≠ 2 →
      (pollNext r).2 = .ready (some (.error .InvalidItemHeader)) ∧
      (pollNext r).1.state = .Eof) ∧
    (∀ cs n v, utf8Decode (r.data.take idx) = some cs → rustTrim cs ≠ [] →
      splitColonSpace cs = [n, v] →
      pollStep r = .cont { r with
        pending_item := some ⟨(r.pending_item.getD ⟨[], []⟩).headers ++ [(n, v)],
          (r.pending_item.getD ⟨[], []⟩).data⟩,
        data := r.data.drop (idx + 2) }) := by
  obtain ⟨bd, dt, st, t, pend⟩ := r
  simp only [] at hst hf ⊢
  subst hst
  refine ⟨?_, ?_, ?_⟩
  · intro hdec
    have hstep : pollStep ⟨bd, dt, .Headers, t, pend⟩ =
        .done ⟨bd, dt, .Eof, t, some (pend.getD ⟨[], []⟩)⟩
          (.ready (some (.error .InvalidItemHeader))) := by
      unfold pollStep
      simp only []
      rw [hf]
      simp only []
      rw [hdec]
    rw [pollNext_of_done _ _ _ hstep]
    exact ⟨rfl, rfl⟩
  · intro cs hdec htrim hlen
    rcases hsp : splitColonSpace cs with _ | ⟨a, _ | ⟨b, tl⟩⟩
    · have hstep : pollStep ⟨bd, dt, .Headers, t, pend⟩ =
          .done ⟨bd, dt, .Eof, t, some (pend.getD ⟨[], []⟩)⟩
            (.ready (some (.error .InvalidItemHeader))) := by
        unfold pollStep
        simp only []
        rw [hf]
        simp only []
        rw [hdec]
        simp only []
        rw [if_neg htrim, hsp]
      rw [pollNext_of_done _ _ _ hstep]
      exact ⟨rfl, rfl⟩
    · have hstep : pollStep ⟨bd, dt, .Headers, t, pend⟩ =
          .done ⟨bd, dt, .Eof, t, some (pend.getD ⟨[], []⟩)⟩
            (.ready (some (.error .InvalidItemHeader))) := by
        unfold pollStep
        simp only []
        rw [hf]
        simp only []
        rw [hdec]
        simp only []
        rw [if_neg htrim, hsp]
      rw [pollNext_of_done _ _ _ hstep]
      exact ⟨rfl, rfl⟩
    · cases tl with
      | nil => rw [hsp] at hlen; simp at hlen
      | cons c tl2 =>
        have hstep : pollStep ⟨bd, dt, .Headers, t, pend⟩ =
            .done ⟨bd, dt, .Eof, t, some (pend.getD ⟨[], []⟩)⟩
              (.ready (some (.error .InvalidItemHeader))) := by
          unfold pollStep
          simp only []
          rw [hf]
          simp only []
          rw [hdec]
          simp only []
          rw [if_neg htrim, hsp]
        rw [pollNext_of_done _ _ _ hstep]
        exact ⟨rfl, rfl⟩
  · intro cs n v hdec htrim hsp
    unfold pollStep
    simp only []
    rw [hf]
    simp only []
    rw [hdec]
    simp only []
    rw [if_neg htrim, hsp]

theorem C3_witness :
    ((⟨[98], [255, 13, 10], .Headers, .FormData, none⟩ : MultipartReader).state = .Headers ∧
      findCRLF [255, 13, 10] = some 1 ∧
      utf8Decode [255] = none ∧
      (pollNext ⟨[98], [255, 13, 10], .Headers, .FormData, none⟩).2 =
        .ready (some (.error .InvalidItemHeader)) ∧
      (pollNext ⟨[98], [255, 13, 10], .Headers, .FormData, none⟩).1.state = .Eof) ∧
    ((splitColonSpace [65]).length ≠ 2 ∧
      (pollNext ⟨[98], [65, 13, 10], .Headers, .FormData, none⟩).2 =
        .ready (some (.error .InvalidItemHeader)) ∧
      (pollNext ⟨[98], [65, 13, 10], .Headers, .FormData, none⟩).1.state = .Eof) ∧
    (splitColonSpace [67, 58, 32, 68] = [[67], [68]] ∧
      pollStep ⟨[98], [67, 58, 32, 68, 13, 10], .Headers, .FormData, none⟩ =
        .cont ⟨[98], [], .Headers, .FormData, some ⟨[([67], [68])], []⟩⟩) := by
  have h1 := (C3_reading_headers_line_cases
    ⟨[98], [255, 13, 10], .Headers, .FormData, none⟩ 1 rfl rfl).1 rfl
  have h2 := (C3_reading_headers_line_cases
    ⟨[98], [65, 13, 10], .Headers, .FormData, none⟩ 1 rfl rfl).2.1 [65] rfl
    (by decide) (by decide)
  have h3 := (C3_reading_headers_line_cases
    ⟨[98], [67, 58, 32, 68, 13, 10], .Headers, .FormData, none⟩ 4 rfl rfl).2.2
    [67, 58, 32, 68] [67] [68] rfl (by decide) rfl
  exact ⟨⟨rfl, rfl, rfl, h1.1, h1.2⟩, ⟨by decide, h2.1, h2.2⟩, ⟨rfl, h3⟩⟩

theorem pollStep_cont_suffix (r r' : MultipartReader) (h : pollStep r = .cont r') :
    ∃ tl, tl ++ r'.data = r.data := by
  obtain ⟨bd, dt, st, t, pend⟩ := r
  unfold pollStep at h
  cases hf : findCRLF dt <;> rw [hf] at h
  · simp at h
  · case some idx =>
    cases st <;> simp only [] at h
    · simp at h
    · simp only [StepRes.cont.injEq] at h
      subst h
      exact ⟨dt.take (idx + 2), List.take_append_drop (idx + 2) dt⟩
    · split at h
      · split at h
        · simp at h
        · simp only [StepRes.cont.injEq] at h
          subst h
          exact ⟨dt.take (idx + 2), List.take_append_drop (idx + 2) dt⟩
      · split at h
        · simp only [StepRes.cont.injEq] at h
          subst h
          exact ⟨dt.take (idx + 2), List.take_append_drop (idx + 2) dt⟩
        · simp at h
    · split at h
      · simp at h
      · split at h
        · simp only [StepRes.cont.injEq] at h
          subst h
          exact ⟨dt.take (idx + 2), List.take_append_drop (idx + 2) dt⟩
        · split at h
          · simp only [StepRes.cont.injEq] at h
            subst h
            exact ⟨dt.take (idx + 2), List.take_append_drop (idx + 2) dt⟩
          · simp at h

theorem pollStep_done_suffix (r r' : MultipartReader) (out : PollOut)
    (h : pollStep r = .done r' out) : ∃ tl, tl ++ r'.data = r.data := by
  obtain ⟨bd, dt, st, t, pend⟩ := r
  unfold pollStep at h
  cases hf : findCRLF dt <;> rw [hf] at h
  · simp only [StepRes.done.injEq] at h
    rw [← h.1]
    exact ⟨[], rfl⟩
  · case some idx =>
    cases st <;> simp only [] at h
    · simp only [StepRes.done.injEq] at h
      rw [← h.1]
      exact ⟨[], rfl⟩
    · simp at h
    · split at h
      · split at h
        · simp only [StepRes.done.injEq] at h
          rw [← h.1]
          exact ⟨dt.take (idx + 2), List.take_append_drop (idx + 2) dt⟩
        · simp at h
      · split at h
        · simp at h
        · simp only [StepRes.done.injEq] at h
          rw [← h.1]
          exact ⟨[], rfl⟩
    · split at h
      · simp only [StepRes.done.injEq] at h
        rw [← h.1]
        exact ⟨[], rfl⟩
      · split at h
        · simp at h
        · split at h
          · simp at h
          · simp only [StepRes.done.injEq] at h
            rw [← h.1]
            exact ⟨[], rfl⟩

theorem pollNextAux_data_suffix (n : Nat) : ∀ (r : MultipartReader),
    ∃ tl, tl ++ (pollNextAux n r).1.data = r.data := by
  induction n with
  | zero => intro r; exact ⟨[], rfl⟩
  | succ n ih =>
    intro r
    rw [pollNextAux]
    cases hs : pollStep r with
    | done r' out =>
      simp only []
      exact pollStep_done_suffix r r' out hs
    | cont r' =>
      simp only []
      obtain ⟨t1, ht1⟩ := ih r'
      obtain ⟨t2, ht2⟩ := pollStep_cont_suffix r r' hs
      exact ⟨t2 ++ t1, by rw [List.append_assoc, ht1, ht2]⟩

/-- C8: the cursor advances monotonically: after every step of the
`poll_next` loop (continuing or returning), and hence after every whole
`poll_next` call, the parser's data view is a suffix of the data view before
it, so bytes once consumed are never re-read or re-yielded. -/
theorem C8_cursor_monotone (r : MultipartReader) :
    (∀ r', pollStep r = .cont r' → ∃ tl, tl ++ r'.data = r.data) ∧
    (∀ r' out, pollStep r = .done r' out → ∃ tl, tl ++ r'.data = r.data) ∧
    (∃ tl, tl ++ (pollNext r).1.data = r.data) :=
  ⟨fun r' h => pollStep_cont_suffix r r' h,
    fun r' out h => pollStep_done_suffix r r' out h,
    pollNextAux_data_suffix r.data.length r⟩

theorem C8_witness :
    pollStep ⟨[98], [98, 13, 10, 65], .FirstBoundary, .FormData, none⟩ =
      .cont ⟨[98], [65], .Headers, .FormData, none⟩ ∧
    (∃ tl, tl ++ (⟨[98], [65], .Headers, .FormData,
      none⟩ : MultipartReader).data =
      (⟨[98], [98, 13, 10, 65], .FirstBoundary, .FormData,
        none⟩ : MultipartReader).data) ∧
    (∃ tl, tl ++
      (pollNext ⟨[98], [98, 13, 10, 65], .FirstBoundary, .FormData, none⟩).1.data =
      (⟨[98], [98, 13, 10, 65], .FirstBoundary, .FormData,
        none⟩ : MultipartReader).data) := by
  refine ⟨by decide, ?_, ?_⟩
  · exact (C8_cursor_monotone ⟨[98], [98, 13, 10, 65], .FirstBoundary, .FormData, none⟩).1
      ⟨[98], [65], .Headers, .FormData, none⟩ (by decide)
  · exact (C8_cursor_monotone ⟨[98], [98, 13, 10, 65], .FirstBoundary, .FormData,
      none⟩).2.2

/-- Parser configurations reachable from either constructor by any sequence
of `poll_next` calls. -/
inductive Reachable : MultipartReader → Prop
  | from_boundary (data boundary : List Nat) (t : MultipartType) (r : MultipartReader) :
      fromDataWithBoundaryAndType data boundary t = .ok r → Reachable r
  | from_headers (data : List Nat) (headers : List (List Nat × List Nat))
      (r : MultipartReader) : fromDataWithHeaders data headers = .ok r → Reachable r
  | step (r : MultipartReader) : Reachable r → Reachable (pollNext r).1

/-- The safety invariant: in state `Boundary` a pending item always exists. -/
def ReaderInv (r : MultipartReader) : Prop :=
  r.state = .Boundary → r.pending_item.isSome = true

theorem pollStep_preserves_inv (r : MultipartReader) (hinv : ReaderInv r) :
    (∀ r', pollStep r = .cont r' → ReaderInv r') ∧
    (∀ r' out, pollStep r = .done r' out → ReaderInv r' ∧ out ≠ .panicked) := by
  obtain ⟨bd, dt, st, t, pend⟩ := r
  constructor
  · intro r' h
    unfold pollStep at h
    cases hf : findCRLF dt <;> rw [hf] at h
    · simp at h
    · case some idx =>
      cases st <;> simp only [] at h
      · simp at h
      · simp only [StepRes.cont.injEq] at h
        subst h
        intro hb
        simp only [] at hb
        split at hb <;> simp_all
      · split at h
        · split at h
          · simp at h
          · simp only [StepRes.cont.injEq] at h
            subst h
            intro hb
            simp at hb
        · split at h
          · simp only [StepRes.cont.injEq] at h
            subst h
            intro hb
            rfl
          · simp at h
      · split at h
        · simp at h
        · split at h
          · simp only [StepRes.cont.injEq] at h
            subst h
            intro hb
            rfl
          · split at h
            · simp only [StepRes.cont.injEq] at h
              subst h
              intro hb
              simp at hb
            · simp at h
  · intro r' out h
    unfold pollStep at h
    cases hf : findCRLF dt <;> rw [hf] at h
    · simp only [StepRes.done.injEq] at h
      rw [← h.1, ← h.2]
      exact ⟨hinv, by simp⟩
    · case some idx =>
      cases st <;> simp only [] at h
      · simp only [StepRes.done.injEq] at h
        rw [← h.1, ← h.2]
        exact ⟨hinv, by simp⟩
      · simp at h
      · split at h
        · split at h
          · simp only [StepRes.done.injEq] at h
            rw [← h.1, ← h.2]
            exact ⟨by intro hb; simp at hb, by simp⟩
          · simp at h
        · split at h
          · simp at h
          · exact absurd (hinv rfl) (by simp)
      · split at h
        · simp only [StepRes.done.injEq] at h
          rw [← h.1, ← h.2]
          exact ⟨by intro hb; simp at hb, by simp⟩
        · split at h
          · simp at h
          · split at h
            · simp at h
            · simp only [StepRes.done.injEq] at h
              rw [← h.1, ← h.2]
              exact ⟨by intro hb; simp at hb, by simp⟩

theorem pollNextAux_preserves_inv (n : Nat) : ∀ (r : MultipartReader), ReaderInv r →
    ReaderInv (pollNextAux n r).1 ∧ (pollNextAux n r).2 ≠ .panicked := by
  induction n with
  | zero => intro r hinv; exact ⟨hinv, by simp [pollNextAux]⟩
  | succ n ih =>
    intro r hinv
    rw [pollNextAux]
    cases hs : pollStep r with
    | done r' out =>
      simp only []
      exact (pollStep_preserves_inv r hinv).2 r' out hs
    | cont r' =>
      simp only []
      exact ih r' ((pollStep_preserves_inv r hinv).1 r' hs)

theorem fromDataWithHeaders_state (data : List Nat)
    (headers : List (List Nat × List Nat)) (r : MultipartReader)
    (h : fromDataWithHeaders data headers = .ok r) : r.state = .FirstBoundary := by
  unfold fromDataWithHeaders at h
  repeat' split at h
  all_goals simp_all
  rw [← h]

theorem reachable_inv (r : MultipartReader) (h : Reachable r) : ReaderInv r := by
  induction h with
  | from_boundary data bd t r hr =>
    unfold fromDataWithBoundaryAndType at hr
    simp only [Except.ok.injEq] at hr
    subst hr
    intro hb
    simp at hb
  | from_headers data headers r hr =>
    intro hb
    rw [fromDataWithHeaders_state data headers r hr] at hb
    simp at hb
  | step r hr ih =>
    exact (pollNextAux_preserves_inv r.data.length r ih).1

/-- C9: in every reachable parser configuration, state `Boundary` implies the
pending item is present, so the `unwrap()` performed when appending a
non-boundary line's bytes to the pending item never panics. -/
theorem C9_boundary_pending_some (r : MultipartReader) (h : Reachable r) :
    (r.state = .Boundary → r.pending_item.isSome = true) ∧
    (pollNext r).2 ≠ .panicked :=
  ⟨reachable_inv r h, (pollNextAux_preserves_inv r.data.length r (reachable_inv r h)).2⟩

theorem C9_witness :
    ((⟨[98], [13, 10, 13, 10], .FirstBoundary, .FormData,
        none⟩ : MultipartReader).state = .Boundary →
      (⟨[98], [13, 10, 13, 10], .FirstBoundary, .FormData,
        none⟩ : MultipartReader).pending_item.isSome = true) ∧
    (pollNext ⟨[98], [13, 10, 13, 10], .FirstBoundary, .FormData, none⟩).2 ≠ .panicked :=
  C9_boundary_pending_some _ (Reachable.from_boundary [13, 10, 13, 10] [98] .FormData _ rfl)

theorem pollStep_done_not_pending (r r' : MultipartReader) (out : PollOut)
    (h : pollStep r = .done r' out) : out ≠ .pending := by
  obtain ⟨bd, dt, st, t, pend⟩ := r
  unfold pollStep at h
  cases hf : findCRLF dt <;> rw [hf] at h
  · simp only [StepRes.done.injEq] at h
    rw [← h.2]
    simp
  · case some idx =>
    cases st <;> simp only [] at h
    all_goals (repeat' split at h)
    all_goals simp_all
    all_goals (rw [← h.2]; simp)

theorem pollNextAux_not_pending (n : Nat) : ∀ (r : MultipartReader),
    (pollNextAux n r).2 ≠ .pending := by
  induction n with
  | zero => intro r; simp [pollNextAux]
  | succ n ih =>
    intro r
    rw [pollNextAux]
    cases hs : pollStep r with
    | done r' out =>
      simp only []
      exact pollStep_done_not_pending r r' out hs
    | cont r' =>
      simp only []
      exact ih r'

/-- C10: `poll_next` always returns `Poll::Ready` synchronously: it never
returns `Poll::Pending` for any buffer and configuration, and exhaustion of
the buffer (no CRLF left) is reported as `Ready(None)`. -/
theorem C10_always_ready (r : MultipartReader) :
    (pollNext r).2 ≠ .pending ∧
    (findCRLF r.data = none → pollNext r = (r, .ready none)) :=
  ⟨pollNextAux_not_pending r.data.length r,
    fun h => pollNext_of_done _ _ _ (pollStep_of_no_crlf r h)⟩

theorem C10_witness :
    (pollNext ⟨[98], [70, 71], .Headers, .FormData, none⟩).2 ≠ .pending ∧
    pollNext ⟨[98], [70, 71], .Headers, .FormData, none⟩ =
      (⟨[98], [70, 71], .Headers, .FormData, none⟩, .ready none) :=
  ⟨(C10_always_ready _).1, (C10_always_ready _).2 rfl⟩
